import Mathlib

/-!
Shallow embedding of `src/embeddings.ts` (the qmd embedding client).

The TypeScript module reads four environment variables once at module load,
resolves an OpenAI-compatible client (or none), and exposes
`getEmbeddingDimensions`, `isEmbeddingsEnabled`, `embed`, `embedSingle`,
`cosineSimilarity` and `getModelName`.

Modelling conventions:
* `process.env.X` is `Option String` (`none` = variable unset).
* JavaScript truthiness of a string environment value: `undefined` and the
  empty string are falsy, every other string is truthy (`jsTruthy`).
* `a || b` on env strings is `jsOr` / `jsOrStr` (falls through on falsy).
* The remote provider (`client.embeddings.create`) is a function parameter
  `provider : String → List String → Except ε (List (Nat × Vec))`, returning
  the response's `data` array of `(index, embedding)` pairs, or a
  provider-defined error `ε`.
* `embed` returns, besides its `Except` result, the list of provider
  invocations it performed (each recorded as `(model, batch)`), which is the
  shallow embedding of the side effect of calling the remote capability.
* Real numbers stand in for JavaScript's IEEE doubles; the structural facts
  proved here (accumulation shape, zero-denominator check, commutativity of
  the products being summed) are the exact-arithmetic content of the claims.
-/

namespace Qmd

/-- The four environment variables read by the module. -/
structure Env where
  OPENROUTER_API_KEY : Option String
  OPENAI_API_KEY : Option String
  OPENAI_BASE_URL : Option String
  QMD_EMBEDDING_MODEL : Option String
deriving DecidableEq

/-- JavaScript truthiness of an optional environment string:
`undefined` and `""` are falsy. -/
def jsTruthy : Option String → Bool
  | none => false
  | some s => decide (s ≠ "")

/-- JavaScript `a || d` where `d` is a (truthy) string literal default. -/
def jsOrStr (a : Option String) (d : String) : String :=
  match a with
  | some s => if s = "" then d else s
  | none => d

/-- Source: `const API_KEY = OPENAI_API_KEY || OPENROUTER_API_KEY;` -/
def API_KEY (env : Env) : Option String :=
  if jsTruthy env.OPENAI_API_KEY then env.OPENAI_API_KEY else env.OPENROUTER_API_KEY

/-- Source: `const BASE_URL = OPENAI_API_KEY ? OPENAI_BASE_URL : "https://openrouter.ai/api/v1";`
where `OPENAI_BASE_URL` already carries its default
`process.env.OPENAI_BASE_URL || "https://api.openai.com/v1"`. -/
def BASE_URL (env : Env) : String :=
  if jsTruthy env.OPENAI_API_KEY then jsOrStr env.OPENAI_BASE_URL "https://api.openai.com/v1"
  else "https://openrouter.ai/api/v1"

/-- Source: `const EMBEDDING_MODEL = process.env.QMD_EMBEDDING_MODEL || "openai/text-embedding-3-small";` -/
def EMBEDDING_MODEL (env : Env) : String :=
  jsOrStr env.QMD_EMBEDDING_MODEL "openai/text-embedding-3-small"

/-- The fields of the constructed `OpenAI` client that the module determines:
credential, base endpoint, and extra default headers. -/
structure Client where
  apiKey : String
  baseURL : String
  defaultHeaders : List (String × String)
deriving DecidableEq

/-- The OpenRouter-specific headers attached when only the secondary
credential is in use. -/
def openRouterHeaders : List (String × String) :=
  [("HTTP-Referer", "https://github.com/qmd"), ("X-Title", "QMD Knowledge Base")]

/-- Source: `const client = API_KEY ? new OpenAI({...}) : null;` with
`defaultHeaders` spread in exactly when `OPENROUTER_API_KEY && !OPENAI_API_KEY`. -/
def client (env : Env) : Option Client :=
  if jsTruthy (API_KEY env) then
    some { apiKey := (API_KEY env).getD ""
           baseURL := BASE_URL env
           defaultHeaders :=
             if jsTruthy env.OPENROUTER_API_KEY && !jsTruthy env.OPENAI_API_KEY then
               openRouterHeaders
             else [] }
  else none

/-- Source: `const MODEL_DIMENSIONS: Record<string, number> = {...};` -/
def MODEL_DIMENSIONS : List (String × Nat) :=
  [("openai/text-embedding-3-small", 1536),
   ("openai/text-embedding-3-large", 3072),
   ("cohere/embed-english-v3.0", 1024),
   ("cohere/embed-multilingual-v3.0", 1024)]

/-- Function `getEmbeddingDimensions`: `MODEL_DIMENSIONS[EMBEDDING_MODEL] || 1536`
(`undefined` and the number `0` are falsy in JavaScript). -/
def getEmbeddingDimensions (env : Env) : Nat :=
  match MODEL_DIMENSIONS.lookup (EMBEDDING_MODEL env) with
  | some d => if d = 0 then 1536 else d
  | none => 1536

/-- Function `isEmbeddingsEnabled`: `!!client`. -/
def isEmbeddingsEnabled (env : Env) : Bool :=
  (client env).isSome

/-- Function `getModelName`: returns `EMBEDDING_MODEL`. -/
def getModelName (env : Env) : String :=
  EMBEDDING_MODEL env

/-- An embedding vector: `number[]`, idealised as a list of reals. -/
abbrev Vec := List ℝ

/-- The failures `embed` can surface, over a provider-defined cause type `ε`:
`notConfigured` models `throw new Error("OPENROUTER_API_KEY not configured")`;
`providerError i e` models the failure surfaced for the batch starting at
offset `i`: the code logs the batch offset
(`console.error("Error generating embeddings for batch " + i, error)`) and
rethrows the underlying provider error, so the observable failure carries
both the offset and the cause. -/
inductive EmbedError (ε : Type) where
  | notConfigured : EmbedError ε
  | providerError (offset : Nat) (cause : ε) : EmbedError ε
deriving DecidableEq

/-- Source: `const BATCH_SIZE = 100;` -/
def BATCH_SIZE : Nat := 100

/-- The ascending-index comparator `(a, b) => a.index - b.index` used to
re-sort a batch response. -/
def byIndex : Nat × Vec → Nat × Vec → Bool :=
  fun p q => decide (p.1 ≤ q.1)

/-- The batching loop of `embed`:
`for (let i = 0; i < texts.length; i += BATCH_SIZE)` with
`batch = texts.slice(i, i + BATCH_SIZE)`, one provider call per batch,
per-batch results sorted by index (`.sort((a, b) => a.index - b.index)`)
and their embeddings appended to the accumulated results; on a provider
failure the error for offset `i` is surfaced and the accumulated results are
discarded.  The first component of the result is the trace of provider
invocations performed, in order. -/
def embedLoop (provider : String → List String → Except ε (List (Nat × Vec)))
    (model : String) :
    List String → Nat → List (String × List String) × Except (EmbedError ε) (List Vec)
  | [], _ => ([], .ok [])
  | t :: ts, i =>
    let batch := (t :: ts).take BATCH_SIZE
    match provider model batch with
    | .error e => ([(model, batch)], .error (.providerError i e))
    | .ok data =>
      let sorted := data.mergeSort byIndex
      let rest := embedLoop provider model ((t :: ts).drop BATCH_SIZE) (i + BATCH_SIZE)
      ((model, batch) :: rest.1, rest.2.map fun r => sorted.map Prod.snd ++ r)
termination_by ts _ => ts.length
decreasing_by simp [BATCH_SIZE]; omega

/-- Function `embed(texts)`: throws `NotConfigured` when no client was constructed,
short-circuits on empty input, otherwise runs the batching loop from
offset 0. -/
def embed (env : Env) (provider : String → List String → Except ε (List (Nat × Vec)))
    (texts : List String) :
    List (String × List String) × Except (EmbedError ε) (List Vec) :=
  if (client env).isNone then ([], .error .notConfigured)
  else if texts.length = 0 then ([], .ok [])
  else embedLoop provider (EMBEDDING_MODEL env) texts 0

/-- The consecutive batches `texts.slice(i, i + BATCH_SIZE)` that the loop of
`embed` walks through, used to state the batching claims. -/
def toBatches : List α → List (List α)
  | [] => []
  | t :: ts => (t :: ts).take BATCH_SIZE :: toBatches ((t :: ts).drop BATCH_SIZE)
termination_by l => l.length
decreasing_by simp [BATCH_SIZE]; omega

/-- The failure of `cosineSimilarity`:
`throw new Error("Vector dimension mismatch: " + a.length + " vs " + b.length)`,
carrying both lengths. -/
inductive SimError where
  | dimensionMismatch (la lb : Nat) : SimError
deriving DecidableEq

/-- The single accumulation pass of `cosineSimilarity`:
`dot += a[i]*b[i]; normA += a[i]*a[i]; normB += b[i]*b[i]`. -/
def simLoop : List ℝ → List ℝ → ℝ × ℝ × ℝ → ℝ × ℝ × ℝ
  | x :: xs, y :: ys, (d, na, nb) => simLoop xs ys (d + x * y, na + x * x, nb + y * y)
  | _, _, acc => acc

open Classical in
/-- Function `cosineSimilarity(a, b)`: length guard, one accumulation pass, then
`denominator = Math.sqrt(normA) * Math.sqrt(normB)`; returns `0` when the
denominator is exactly `0`, else `dot / denominator`. -/
noncomputable def cosineSimilarity (a b : List ℝ) : Except SimError ℝ :=
  if a.length ≠ b.length then .error (.dimensionMismatch a.length b.length)
  else
    let s := simLoop a b (0, 0, 0)
    let denominator := Real.sqrt s.2.1 * Real.sqrt s.2.2
    if denominator = 0 then .ok 0 else .ok (s.1 / denominator)

/-- Spec-side dot product `Σ a[i]*b[i]` (over the common prefix). -/
def dotProduct : List ℝ → List ℝ → ℝ
  | x :: xs, y :: ys => x * y + dotProduct xs ys
  | _, _ => 0

/-- Spec-side sum of squares `Σ a[i]*a[i]`. -/
def sumSq : List ℝ → ℝ
  | [] => 0
  | x :: xs => x * x + sumSq xs

/-- The canonical in-order provider response for a batch `b` when the provider
associates the vector `vecOf s` with each input text `s`: one
`(index, vector)` pair per input, index `j` (0-based, batch-local) carrying
the vector of `b[j]`. -/
def canonResponse (vecOf : String → Vec) (b : List String) : List (Nat × Vec) :=
  (List.range b.length).map fun j => (j, vecOf (b.getD j ""))

/-- A concrete environment with only the primary credential set. -/
def envOpenAI : Env := ⟨none, some "sk-test", none, none⟩

/-- A concrete environment with no credential at all. -/
def envNone : Env := ⟨none, none, none, none⟩

/-- A concrete association of texts to vectors, for witnesses. -/
def vecLen : String → Vec := fun s => [(s.length : ℝ)]

/-- A concrete provider that always succeeds but returns its `(index, vector)`
pairs in reversed index order. -/
def provRev : String → List String → Except Unit (List (Nat × Vec)) :=
  fun _ b => .ok ((canonResponse vecLen b).reverse)

/-- A concrete provider that always fails. -/
def provErr : String → List String → Except Unit (List (Nat × Vec)) :=
  fun _ _ => .error ()

/-! ### Configuration resolution and dimension table -/

/-- A successful association-list lookup finds a member pair. -/
lemma lookup_mem {α β : Type} [BEq α] [LawfulBEq α] :
    ∀ (l : List (α × β)) (a : α) (b : β), l.lookup a = some b → (a, b) ∈ l
  | [], _, _, h => by simp at h
  | (k, v) :: es, a, b, h => by
    rw [List.lookup_cons] at h
    by_cases hk : a == k
    · rw [hk] at h
      obtain rfl : v = b := by simpa using h
      have hak : a = k := eq_of_beq hk
      subst hak
      exact List.mem_cons_self _ _
    · rw [Bool.not_eq_true] at hk
      rw [hk] at h
      exact List.mem_cons_of_mem _ (lookup_mem es a b h)

/-- C9: `isEnabled` is true iff at least one credential is truthy; with the
primary credential present the client uses it together with the configurable
endpoint (canonical public endpoint when no override); with only the
secondary credential, the secondary provider's fixed endpoint and its
provider-specific headers are used. -/
theorem config_resolution :
    (∀ env : Env, isEmbeddingsEnabled env =
        (jsTruthy env.OPENAI_API_KEY || jsTruthy env.OPENROUTER_API_KEY)) ∧
    (∀ env : Env, jsTruthy env.OPENAI_API_KEY = true →
      client env = some ⟨env.OPENAI_API_KEY.getD "",
        jsOrStr env.OPENAI_BASE_URL "https://api.openai.com/v1", []⟩) ∧
    (∀ env : Env, jsTruthy env.OPENAI_API_KEY = true → env.OPENAI_BASE_URL = none →
      client env = some ⟨env.OPENAI_API_KEY.getD "", "https://api.openai.com/v1", []⟩) ∧
    (∀ env : Env, jsTruthy env.OPENAI_API_KEY = false →
      jsTruthy env.OPENROUTER_API_KEY = true →
      client env = some ⟨env.OPENROUTER_API_KEY.getD "",
        "https://openrouter.ai/api/v1", openRouterHeaders⟩) := by
  refine ⟨?_, ?_, ?_, ?_⟩
  · intro env
    by_cases h1 : jsTruthy env.OPENAI_API_KEY <;>
      by_cases h2 : jsTruthy env.OPENROUTER_API_KEY <;>
        simp [isEmbeddingsEnabled, client, API_KEY, h1, h2]
  · intro env h
    simp [client, API_KEY, BASE_URL, h]
  · intro env h hurl
    simp [client, API_KEY, BASE_URL, h, hurl, jsOrStr]
  · intro env h1 h2
    simp [client, API_KEY, BASE_URL, h1, h2]

/-- Witness for C9 at concrete environments. -/
theorem config_resolution_witness :
    isEmbeddingsEnabled envNone = false ∧
    client ⟨some "rk", some "ok", none, none⟩ =
      some ⟨"ok", "https://api.openai.com/v1", []⟩ ∧
    client ⟨some "rk", none, none, none⟩ =
      some ⟨"rk", "https://openrouter.ai/api/v1", openRouterHeaders⟩ := by
  refine ⟨?_, ?_, ?_⟩
  · rw [config_resolution.1 envNone]; rfl
  · simpa using config_resolution.2.2.1 ⟨some "rk", some "ok", none, none⟩ (by decide) rfl
  · simpa using config_resolution.2.2.2 ⟨some "rk", none, none, none⟩ (by decide) (by decide)

/-- C8: `getEmbeddingDimensions` is a pure lookup of the resolved model in
the static table: 1536 for the default small model, 3072 for the large
variant, the table's value for every known model, 1536 when the model is
absent from the table. -/
theorem getEmbeddingDimensions_table :
    (∀ env : Env, EMBEDDING_MODEL env = "openai/text-embedding-3-small" →
      getEmbeddingDimensions env = 1536) ∧
    (∀ env : Env, EMBEDDING_MODEL env = "openai/text-embedding-3-large" →
      getEmbeddingDimensions env = 3072) ∧
    (∀ env : Env, ∀ d : Nat, MODEL_DIMENSIONS.lookup (EMBEDDING_MODEL env) = some d →
      getEmbeddingDimensions env = d) ∧
    (∀ env : Env, MODEL_DIMENSIONS.lookup (EMBEDDING_MODEL env) = none →
      getEmbeddingDimensions env = 1536) := by
  have key : ∀ env : Env, ∀ d : Nat,
      MODEL_DIMENSIONS.lookup (EMBEDDING_MODEL env) = some d →
      getEmbeddingDimensions env = d := by
    intro env d h
    have hd : d ≠ 0 := by
      have hm := lookup_mem _ _ _ h
      simp only [ MODEL_DIMENSIONS, List.mem_cons, List.not_mem_nil, or_false,
        Prod.mk.injEq] at hm
      rcases hm with ⟨_, rfl⟩ | ⟨_, rfl⟩ | ⟨_, rfl⟩ | ⟨_, rfl⟩ <;> norm_num
    unfold getEmbeddingDimensions
    rw [h]
    simp [hd]
  refine ⟨?_, ?_, key, ?_⟩
  · intro env h; exact key env 1536 (by rw [h]; rfl)
  · intro env h; exact key env 3072 (by rw [h]; rfl)
  · intro env h; unfold getEmbeddingDimensions; rw [h]

/-- Witness for C8 at concrete environments. -/
theorem getEmbeddingDimensions_table_witness :
    getEmbeddingDimensions ⟨none, none, none, some "openai/text-embedding-3-large"⟩ = 3072 ∧
    getEmbeddingDimensions envNone = 1536 ∧
    getEmbeddingDimensions ⟨none, none, none, some "mystery-model"⟩ = 1536 := by
  refine ⟨?_, ?_, ?_⟩
  · exact getEmbeddingDimensions_table.2.1 _ (by rfl)
  · exact getEmbeddingDimensions_table.1 _ (by rfl)
  · exact getEmbeddingDimensions_table.2.2.2 _ (by rfl)

/-! ### The disabled and empty-input guards of `embed` -/

/-- C3: while disabled (no credential resolved), every `embed` call — the
empty input included — fails with `notConfigured` and performs zero
provider invocations (the invocation trace is empty). -/
theorem embed_not_configured {ε : Type} (env : Env)
    (provider : String → List String → Except ε (List (Nat × Vec)))
    (texts : List String) (h : isEmbeddingsEnabled env = false) :
    embed env provider texts = ([], .error .notConfigured) := by
  have hc : (client env).isNone = true := by
    cases hcl : client env <;> simp [isEmbeddingsEnabled, hcl] at h ⊢
  simp [embed, hc]

/-- Witness for C3: a credential-free environment. -/
theorem embed_not_configured_witness :
    embed envNone provRev ["x"] = ([], .error .notConfigured) :=
  embed_not_configured envNone provRev ["x"] (by rfl)

/-- Counterexample to C4 as stated: with no credential resolved,
`embed([])` does not return the empty sequence — it fails with
`notConfigured`, because the configuration guard runs before the
empty-input short-circuit. -/
theorem embed_empty_disabled_cex :
    (embed envNone provRev ([] : List String)).2 ≠ .ok [] := by
  intro h
  have heval : (embed envNone provRev ([] : List String)).2 =
      .error .notConfigured := rfl
  rw [heval] at h
  exact Except.noConfusion h

/-- C4 (amended): when the system is enabled, `embed([])` returns the empty
sequence and performs zero provider invocations; when disabled it fails
with `notConfigured` (still performing zero provider invocations). -/
theorem embed_empty_enabled {ε : Type} (env : Env)
    (provider : String → List String → Except ε (List (Nat × Vec)))
    (h : isEmbeddingsEnabled env = true) :
    embed env provider ([] : List String) = ([], .ok []) := by
  have hc : (client env).isNone = false := by
    cases hcl : client env <;> simp [isEmbeddingsEnabled, hcl] at h ⊢
  simp [embed, hc]

/-- Witness for the amended C4. -/
theorem embed_empty_enabled_witness :
    embed envOpenAI provRev ([] : List String) = ([], .ok []) :=
  embed_empty_enabled envOpenAI provRev (by rfl)

/-! ### Cosine similarity -/

/-- The single accumulation pass computes the three spec-side sums. -/
lemma simLoop_eq : ∀ (a b : List ℝ), a.length = b.length → ∀ d na nb : ℝ,
    simLoop a b (d, na, nb) = (d + dotProduct a b, na + sumSq a, nb + sumSq b)
  | [], [], _ => by
    intro d na nb
    simp [simLoop, dotProduct, sumSq]
  | [], _ :: _, h => by simp at h
  | _ :: _, [], h => by simp at h
  | x :: xs, y :: ys, h => by
    intro d na nb
    rw [simLoop, simLoop_eq xs ys (by simpa using h)]
    simp only [dotProduct, sumSq, Prod.mk.injEq]
    refine ⟨by ring, by ring, by ring⟩

open Classical in
/-- Evaluating `cosineSimilarity` on equal-length vectors gives the guarded quotient of the
spec-side sums. -/
lemma cosineSimilarity_eq (a b : List ℝ) (h : a.length = b.length) :
    cosineSimilarity a b =
      if Real.sqrt (sumSq a) * Real.sqrt (sumSq b) = 0 then .ok 0
      else .ok (dotProduct a b / (Real.sqrt (sumSq a) * Real.sqrt (sumSq b))) := by
  unfold cosineSimilarity
  rw [if_neg (by omega : ¬a.length ≠ b.length)]
  dsimp only
  rw [simLoop_eq a b h]
  simp only [zero_add]

/-- On unequal lengths `cosineSimilarity` fails, naming both lengths. -/
lemma cosineSimilarity_mismatch (a b : List ℝ) (h : a.length ≠ b.length) :
    cosineSimilarity a b = .error (.dimensionMismatch a.length b.length) := by
  unfold cosineSimilarity
  rw [if_pos h]

/-- On equal lengths `cosineSimilarity` never fails. -/
lemma cosineSimilarity_ok (a b : List ℝ) (h : a.length = b.length) :
    ∃ r, cosineSimilarity a b = .ok r := by
  rw [cosineSimilarity_eq a b h]
  by_cases hc : Real.sqrt (sumSq a) * Real.sqrt (sumSq b) = 0
  · exact ⟨0, by rw [if_pos hc]⟩
  · exact ⟨_, by rw [if_neg hc]⟩

open Classical in
/-- C6: `cosineSimilarity` computes the three running sums in one pass and
returns `dot / (sqrt(sumSq a) * sqrt(sumSq b))`, returning `0` when that
denominator is exactly zero. -/
theorem cosineSimilarity_formula (a b : List ℝ) (h : a.length = b.length) :
    cosineSimilarity a b =
      if Real.sqrt (sumSq a) * Real.sqrt (sumSq b) = 0 then .ok 0
      else .ok (dotProduct a b / (Real.sqrt (sumSq a) * Real.sqrt (sumSq b))) :=
  cosineSimilarity_eq a b h

/-- Witness for C6: the zero-denominator case `cosineSimilarity([0,0],[1,2])`. -/
theorem cosineSimilarity_formula_witness :
    cosineSimilarity [(0 : ℝ), 0] [1, 2] = .ok 0 := by
  rw [cosineSimilarity_formula [(0 : ℝ), 0] [1, 2] (by simp)]
  norm_num [sumSq]

/-- C7: `cosineSimilarity` fails with `dimensionMismatch` naming both lengths
iff the lengths differ; on equal lengths it never raises. -/
theorem cosineSimilarity_dimension_guard (a b : List ℝ) :
    (a.length ≠ b.length →
      cosineSimilarity a b = .error (.dimensionMismatch a.length b.length)) ∧
    (a.length = b.length → ∃ r, cosineSimilarity a b = .ok r) :=
  ⟨cosineSimilarity_mismatch a b, cosineSimilarity_ok a b⟩

/-- Witness for C7: mismatched lengths raise, equal lengths do not. -/
theorem cosineSimilarity_dimension_guard_witness :
    cosineSimilarity [(1 : ℝ), 2] [1, 2, 3] = .error (.dimensionMismatch 2 3) ∧
    cosineSimilarity [(1 : ℝ), 0] [0, 1] ≠ .error (.dimensionMismatch 2 2) := by
  constructor
  · simpa using (cosineSimilarity_dimension_guard [(1 : ℝ), 2] [1, 2, 3]).1 (by simp)
  · obtain ⟨r, hr⟩ := (cosineSimilarity_dimension_guard [(1 : ℝ), 0] [0, 1]).2 (by simp)
    rw [hr]
    intro hcontra
    exact Except.noConfusion hcontra

/-- The spec-side dot product is commutative. -/
lemma dotProduct_comm : ∀ a b : List ℝ, dotProduct a b = dotProduct b a
  | [], [] => rfl
  | [], _ :: _ => rfl
  | _ :: _, [] => rfl
  | x :: xs, y :: ys => by
    simp only [dotProduct]
    rw [dotProduct_comm xs ys, mul_comm]

/-- C10: `cosineSimilarity` is symmetric on equal-length vectors, and on
unequal lengths both argument orders fail with the dimension-mismatch
error naming the two lengths. -/
theorem cosineSimilarity_symm (a b : List ℝ) :
    (a.length = b.length → cosineSimilarity a b = cosineSimilarity b a) ∧
    (a.length ≠ b.length →
      cosineSimilarity a b = .error (.dimensionMismatch a.length b.length) ∧
      cosineSimilarity b a = .error (.dimensionMismatch b.length a.length)) := by
  constructor
  · intro h
    rw [cosineSimilarity_eq a b h, cosineSimilarity_eq b a h.symm, dotProduct_comm b a,
      mul_comm (Real.sqrt (sumSq b)) (Real.sqrt (sumSq a))]
  · intro h
    exact ⟨cosineSimilarity_mismatch a b h, cosineSimilarity_mismatch b a h.symm⟩

/-- Witness for C10 at concrete vectors. -/
theorem cosineSimilarity_symm_witness :
    cosineSimilarity [(1 : ℝ), 2] [3, 4] = cosineSimilarity [(3 : ℝ), 4] [1, 2] ∧
    cosineSimilarity [(1 : ℝ)] [] = .error (.dimensionMismatch 1 0) := by
  constructor
  · exact (cosineSimilarity_symm [(1 : ℝ), 2] [3, 4]).1 (by simp)
  · simpa using ((cosineSimilarity_symm [(1 : ℝ)] []).2 (by simp)).1

/-! ### Order restoration within a batch -/

/-- Reading a list positionally along `range` is `map`. -/
lemma range_map_getD {α β : Type} (l : List α) (d : α) (f : α → β) :
    (List.range l.length).map (fun j => f (l.getD j d)) = l.map f := by
  induction l with
  | nil => simp
  | cons x xs ih =>
    rw [List.length_cons, List.range_succ_eq_map, List.map_cons, List.map_cons]
    congr 1
    rw [List.map_map]
    simpa [Function.comp_def] using ih

/-- Sorting by index any permutation of an index-tagged family restores the
canonical ascending order. -/
lemma mergeSort_byIndex_range {v : Nat → Vec} {n : Nat} {l : List (Nat × Vec)}
    (hp : l.Perm ((List.range n).map fun j => (j, v j))) :
    l.mergeSort byIndex = (List.range n).map fun j => (j, v j) := by
  have hperm : (l.mergeSort byIndex).Perm ((List.range n).map fun j => (j, v j)) :=
    (List.mergeSort_perm l byIndex).trans hp
  have htrans : ∀ a b c : Nat × Vec, byIndex a b → byIndex b c → byIndex a c := by
    intro a b c hab hbc
    simp only [byIndex, decide_eq_true_eq] at hab hbc ⊢
    omega
  have htotal : ∀ a b : Nat × Vec, byIndex a b || byIndex b a := by
    intro a b
    simp only [byIndex, Bool.or_eq_true, decide_eq_true_eq]
    omega
  have hsorted : (l.mergeSort byIndex).Pairwise (fun p q : Nat × Vec => p.1 ≤ q.1) :=
    (List.sorted_mergeSort htrans htotal l).imp (fun h => by simpa [byIndex] using h)
  have hkperm : ((l.mergeSort byIndex).map Prod.fst).Perm (List.range n) := by
    have hm := hperm.map Prod.fst
    simpa [List.map_map, Function.comp_def] using hm
  have hksorted : ((l.mergeSort byIndex).map Prod.fst).Sorted (· ≤ ·) :=
    hsorted.map Prod.fst (fun a b h => h)
  have hkeys : (l.mergeSort byIndex).map Prod.fst = List.range n :=
    List.eq_of_perm_of_sorted hkperm hksorted (List.sorted_le_range n)
  have helem : ∀ p ∈ l.mergeSort byIndex, p = (p.1, v p.1) := by
    intro p hpmem
    have hmem : p ∈ (List.range n).map fun j => (j, v j) := hperm.subset hpmem
    simp only [List.mem_map, List.mem_range] at hmem
    obtain ⟨j, _, hj⟩ := hmem
    rw [← hj]
  have hmapid : l.mergeSort byIndex = (l.mergeSort byIndex).map (fun p => (p.1, v p.1)) :=
    (List.map_id _).symm.trans (List.map_congr_left fun p hp2 => helem p hp2)
  have hfactor : (l.mergeSort byIndex).map (fun p => (p.1, v p.1)) =
      ((l.mergeSort byIndex).map Prod.fst).map (fun j => (j, v j)) := by
    rw [List.map_map]
    rfl
  rw [hmapid, hfactor, hkeys]

/-- Sorting by index any permutation of a canonical batch response yields the
canonical response itself. -/
lemma sort_canonResponse (vecOf : String → Vec) (b : List String)
    {l : List (Nat × Vec)} (hp : l.Perm (canonResponse vecOf b)) :
    l.mergeSort byIndex = canonResponse vecOf b := by
  unfold canonResponse at hp ⊢
  exact mergeSort_byIndex_range hp

/-- The vectors of a canonical batch response, in order, are the per-text
vectors of the batch. -/
lemma canonResponse_map_snd (vecOf : String → Vec) (b : List String) :
    (canonResponse vecOf b).map Prod.snd = b.map vecOf := by
  unfold canonResponse
  rw [List.map_map]
  simpa [Function.comp_def] using range_map_getD b "" vecOf

/-! ### The batch decomposition -/

@[simp] lemma toBatches_nil {α : Type} : toBatches ([] : List α) = [] := by
  rw [toBatches]

lemma toBatches_cons {α : Type} (t : α) (ts : List α) :
    toBatches (t :: ts) =
      (t :: ts).take BATCH_SIZE :: toBatches ((t :: ts).drop BATCH_SIZE) := by
  rw [toBatches]

/-- The batches concatenate back to the input, in order. -/
lemma flatten_toBatches {α : Type} : ∀ l : List α, (toBatches l).flatten = l
  | [] => by simp
  | t :: ts => by
    rw [toBatches_cons, List.flatten_cons,
      flatten_toBatches ((t :: ts).drop BATCH_SIZE)]
    exact List.take_append_drop _ _
termination_by l => l.length
decreasing_by simp [BATCH_SIZE]; omega

/-- There are `⌈N / BATCH_SIZE⌉` batches. -/
lemma length_toBatches {α : Type} : ∀ l : List α, l ≠ [] →
    (toBatches l).length = (l.length + BATCH_SIZE - 1) / BATCH_SIZE
  | [], h => absurd rfl h
  | t :: ts, _ => by
    rw [toBatches_cons]
    by_cases hnil : (t :: ts).drop BATCH_SIZE = []
    · rw [hnil, toBatches_nil]
      have hle : (t :: ts).length ≤ BATCH_SIZE := by
        have hlen := congrArg List.length hnil
        simp only [List.length_drop, List.length_nil] at hlen
        omega
      simp only [List.length_cons, List.length_nil, BATCH_SIZE] at hle ⊢
      omega
    · rw [List.length_cons, length_toBatches ((t :: ts).drop BATCH_SIZE) hnil]
      have hgt : BATCH_SIZE < (t :: ts).length := by
        by_contra hcon
        push_neg at hcon
        exact hnil (List.drop_eq_nil_of_le hcon)
      simp only [List.length_drop, List.length_cons, BATCH_SIZE] at hgt ⊢
      omega
termination_by l => l.length
decreasing_by simp [BATCH_SIZE]; omega

/-- Every batch is nonempty and no larger than the cap. -/
lemma toBatches_mem_size {α : Type} : ∀ (l : List α), ∀ b ∈ toBatches l,
    1 ≤ b.length ∧ b.length ≤ BATCH_SIZE
  | [], b => by simp
  | t :: ts, b => by
    rw [toBatches_cons]
    intro hb
    rcases List.mem_cons.mp hb with h | h
    · subst h
      simp only [List.length_take, List.length_cons, BATCH_SIZE]
      omega
    · exact toBatches_mem_size ((t :: ts).drop BATCH_SIZE) b h
termination_by l => l.length
decreasing_by simp [BATCH_SIZE]; omega

/-- Every batch but the last has size exactly the cap. -/
lemma toBatches_getD_size {α : Type} : ∀ (l : List α) (i : Nat),
    i + 1 < (toBatches l).length → ((toBatches l).getD i []).length = BATCH_SIZE
  | [], i => by simp
  | t :: ts, i => by
    rw [toBatches_cons]
    intro hi
    cases i with
    | zero =>
      have hne : toBatches ((t :: ts).drop BATCH_SIZE) ≠ [] := by
        intro hnil
        rw [hnil] at hi
        simp at hi
      have hdne : (t :: ts).drop BATCH_SIZE ≠ [] := by
        intro hnil
        rw [hnil] at hne
        exact hne toBatches_nil
      have hgt : BATCH_SIZE < (t :: ts).length := by
        by_contra hcon
        push_neg at hcon
        exact hdne (List.drop_eq_nil_of_le hcon)
      simp only [List.getD_cons_zero, List.length_take, List.length_cons,
        BATCH_SIZE] at hgt ⊢
      omega
    | succ j =>
      have hrec := toBatches_getD_size ((t :: ts).drop BATCH_SIZE) j (by simpa using hi)
      simpa using hrec
termination_by l _i => l.length
decreasing_by simp [BATCH_SIZE]; omega

/-! ### The batching loop -/

/-- When every batch call succeeds with one `(index, vector)` pair per input,
the loop calls the provider once per batch in order and accumulates the
vectors in input order. -/
lemma embedLoop_spec {ε : Type}
    (provider : String → List String → Except ε (List (Nat × Vec)))
    (model : String) (vecOf : String → Vec) :
    ∀ (texts : List String) (i : Nat),
      (∀ b ∈ toBatches texts, ∃ l, provider model b = .ok l ∧
        l.Perm (canonResponse vecOf b)) →
      embedLoop provider model texts i =
        ((toBatches texts).map fun b => (model, b), .ok (texts.map vecOf))
  | [], i, _ => by
    rw [embedLoop]
    simp
  | t :: ts, i, hprov => by
    obtain ⟨l, hok, hperm⟩ := hprov ((t :: ts).take BATCH_SIZE)
      (by rw [toBatches_cons]; exact List.mem_cons_self _ _)
    have ih := embedLoop_spec provider model vecOf ((t :: ts).drop BATCH_SIZE)
      (i + BATCH_SIZE)
      (fun b hb => hprov b (by rw [toBatches_cons]; exact List.mem_cons_of_mem _ hb))
    rw [embedLoop, hok]
    dsimp only
    rw [ih, sort_canonResponse vecOf _ hperm, canonResponse_map_snd]
    rw [toBatches_cons, List.map_cons]
    dsimp only [Except.map]
    rw [← List.map_append, List.take_append_drop]
termination_by texts _i _hprov => texts.length
decreasing_by simp [BATCH_SIZE]; omega

/-- When every batch call succeeds, the loop's invocation trace is one call
per batch, in batch order, each passing the model and the batch's texts. -/
lemma embedLoop_trace {ε : Type}
    (provider : String → List String → Except ε (List (Nat × Vec)))
    (model : String) :
    ∀ (texts : List String) (i : Nat),
      (∀ b ∈ toBatches texts, ∃ l, provider model b = .ok l) →
      (embedLoop provider model texts i).1 =
        (toBatches texts).map fun b => (model, b)
  | [], _i, _ => by
    rw [embedLoop]
    simp
  | t :: ts, i, hprov => by
    obtain ⟨l, hok⟩ := hprov ((t :: ts).take BATCH_SIZE)
      (by rw [toBatches_cons]; exact List.mem_cons_self _ _)
    have ih := embedLoop_trace provider model ((t :: ts).drop BATCH_SIZE)
      (i + BATCH_SIZE)
      (fun b hb => hprov b (by rw [toBatches_cons]; exact List.mem_cons_of_mem _ hb))
    rw [embedLoop, hok]
    dsimp only
    rw [ih, toBatches_cons, List.map_cons]
termination_by texts _i _hprov => texts.length
decreasing_by simp [BATCH_SIZE]; omega

/-- When the batches before `k` succeed and batch `k` fails with `e`, the
loop stops right after the failing call: the trace covers exactly the first
`k + 1` batches and the result is the provider error for the failing batch's
starting offset. -/
lemma embedLoop_err {ε : Type}
    (provider : String → List String → Except ε (List (Nat × Vec)))
    (model : String) (e : ε) :
    ∀ (texts : List String) (i k : Nat),
      k < (toBatches texts).length →
      (∀ j < k, ∃ l, provider model ((toBatches texts).getD j []) = .ok l) →
      provider model ((toBatches texts).getD k []) = .error e →
      embedLoop provider model texts i =
        (((toBatches texts).take (k + 1)).map fun b => (model, b),
          .error (.providerError (i + k * BATCH_SIZE) e))
  | [], _i, k, hk, _, _ => by simp at hk
  | t :: ts, i, 0, _, _, herr => by
    rw [toBatches_cons] at herr
    simp only [List.getD_cons_zero] at herr
    rw [embedLoop, herr]
    dsimp only
    rw [toBatches_cons, List.take_succ_cons, List.take_zero, List.map_cons]
    simp
  | t :: ts, i, k + 1, hk, hokk, herr => by
    obtain ⟨l, hok⟩ : ∃ l, provider model ((t :: ts).take BATCH_SIZE) = .ok l := by
      have h0 := hokk 0 (by omega)
      rw [toBatches_cons] at h0
      simpa using h0
    have hk' : k < (toBatches ((t :: ts).drop BATCH_SIZE)).length := by
      rw [toBatches_cons] at hk
      simpa using hk
    have hok' : ∀ j < k, ∃ l2,
        provider model ((toBatches ((t :: ts).drop BATCH_SIZE)).getD j []) = .ok l2 := by
      intro j hj
      have hj1 := hokk (j + 1) (by omega)
      rw [toBatches_cons] at hj1
      simpa using hj1
    have herr' :
        provider model ((toBatches ((t :: ts).drop BATCH_SIZE)).getD k []) = .error e := by
      rw [toBatches_cons] at herr
      simpa using herr
    have ih := embedLoop_err provider model e ((t :: ts).drop BATCH_SIZE)
      (i + BATCH_SIZE) k hk' hok' herr'
    rw [embedLoop, hok]
    dsimp only
    rw [ih]
    dsimp only [Except.map]
    rw [toBatches_cons, List.take_succ_cons, List.map_cons]
    have harith : i + BATCH_SIZE + k * BATCH_SIZE = i + (k + 1) * BATCH_SIZE := by ring
    rw [harith]
termination_by texts _i k _hk _hokk _herr => texts.length
decreasing_by simp [BATCH_SIZE]; omega

/-! ### The `embed` theorems -/

/-- C1: when every per-batch provider call succeeds and returns exactly one
`(index, vector)` pair per input of its batch (in any order), `embed`
returns one vector per input text, the `i`-th being the vector the provider
associated with the `i`-th input, across batch boundaries. -/
theorem embed_order_preserving {ε : Type} (env : Env)
    (provider : String → List String → Except ε (List (Nat × Vec)))
    (texts : List String) (vecOf : String → Vec)
    (hen : isEmbeddingsEnabled env = true)
    (hprov : ∀ b ∈ toBatches texts, ∃ l,
      provider (EMBEDDING_MODEL env) b = .ok l ∧ l.Perm (canonResponse vecOf b)) :
    (embed env provider texts).2 = .ok (texts.map vecOf) := by
  have hc : (client env).isNone = false := by
    cases hcl : client env <;> simp [isEmbeddingsEnabled, hcl] at hen ⊢
  rcases texts with _ | ⟨t, ts⟩
  · simp [embed, hc]
  · have h := embedLoop_spec provider (EMBEDDING_MODEL env) vecOf (t :: ts) 0 hprov
    simp [embed, hc, h]

/-- Witness for C1: three texts, a provider that answers with the pairs in
reversed index order; the result is still in input order. -/
theorem embed_order_preserving_witness :
    (embed envOpenAI provRev ["a", "bb", "ccc"]).2 =
      .ok [[(1 : ℝ)], [(2 : ℝ)], [(3 : ℝ)]] := by
  have h := embed_order_preserving envOpenAI provRev ["a", "bb", "ccc"] vecLen
    (by rfl)
    (fun b _ => ⟨(canonResponse vecLen b).reverse, rfl,
      (canonResponse vecLen b).reverse_perm⟩)
  rw [h]
  have h1 : "a".length = 1 := rfl
  have h2 : "bb".length = 2 := rfl
  have h3 : "ccc".length = 3 := rfl
  simp [vecLen, h1, h2, h3]

/-- C2: if the batches before `k` succeed and batch `k` fails with cause `e`,
`embed` fails with the provider error for batch `k`'s starting offset
`k * BATCH_SIZE` carrying the cause; the invocation trace covers exactly the
batches up to and including `k` — no later batch is invoked — and no partial
result sequence is returned. -/
theorem embed_provider_failure {ε : Type} (env : Env)
    (provider : String → List String → Except ε (List (Nat × Vec)))
    (texts : List String) (k : Nat) (e : ε)
    (hen : isEmbeddingsEnabled env = true)
    (hk : k < (toBatches texts).length)
    (hok : ∀ j < k, ∃ l,
      provider (EMBEDDING_MODEL env) ((toBatches texts).getD j []) = .ok l)
    (herr : provider (EMBEDDING_MODEL env) ((toBatches texts).getD k []) = .error e) :
    embed env provider texts =
      (((toBatches texts).take (k + 1)).map fun b => (EMBEDDING_MODEL env, b),
        .error (.providerError (k * BATCH_SIZE) e)) := by
  have hc : (client env).isNone = false := by
    cases hcl : client env <;> simp [isEmbeddingsEnabled, hcl] at hen ⊢
  rcases texts with _ | ⟨t, ts⟩
  · simp at hk
  · have h := embedLoop_err provider (EMBEDDING_MODEL env) e (t :: ts) 0 k hk hok herr
    rw [Nat.zero_add] at h
    simp [embed, hc, h]

/-- Witness for C2: a single batch whose call fails. -/
theorem embed_provider_failure_witness :
    embed envOpenAI provErr ["a"] =
      ([("openai/text-embedding-3-small", ["a"])],
        .error (.providerError 0 ())) := by
  have hk : 0 < (toBatches ["a"]).length := by
    rw [toBatches_cons]
    simp
  have h := embed_provider_failure envOpenAI provErr ["a"] 0 () (by rfl) hk
    (fun j hj => absurd hj (by omega)) (by rfl)
  rw [h]
  simp [toBatches, BATCH_SIZE, EMBEDDING_MODEL, envOpenAI, jsOrStr]

/-- C5: on a fully successful run over a non-empty input of length `N`,
`embed` performs one provider call per batch, sequentially in batch order,
passing the model and the batch's texts; the batches are `⌈N / 100⌉`
consecutive slices of the input in original order, each of size exactly 100
except a possibly smaller (but nonempty) final one. -/
theorem embed_batches {ε : Type} (env : Env)
    (provider : String → List String → Except ε (List (Nat × Vec)))
    (texts : List String)
    (hen : isEmbeddingsEnabled env = true) (hne : texts ≠ [])
    (hok : ∀ b ∈ toBatches texts, ∃ l, provider (EMBEDDING_MODEL env) b = .ok l) :
    (embed env provider texts).1 =
      (toBatches texts).map (fun b => (EMBEDDING_MODEL env, b)) ∧
    (toBatches texts).length = (texts.length + BATCH_SIZE - 1) / BATCH_SIZE ∧
    (toBatches texts).flatten = texts ∧
    (∀ i, i + 1 < (toBatches texts).length →
      ((toBatches texts).getD i []).length = BATCH_SIZE) ∧
    (∀ b ∈ toBatches texts, 1 ≤ b.length ∧ b.length ≤ BATCH_SIZE) := by
  have hc : (client env).isNone = false := by
    cases hcl : client env <;> simp [isEmbeddingsEnabled, hcl] at hen ⊢
  refine ⟨?_, length_toBatches texts hne, flatten_toBatches texts,
    toBatches_getD_size texts, toBatches_mem_size texts⟩
  rcases texts with _ | ⟨t, ts⟩
  · exact absurd rfl hne
  · have h := embedLoop_trace provider (EMBEDDING_MODEL env) (t :: ts) 0 hok
    simp [embed, hc, h]

/-- Witness for C5: two texts fit in a single batch; one call is made. -/
theorem embed_batches_witness :
    (embed envOpenAI provRev ["a", "bb"]).1 =
      [("openai/text-embedding-3-small", ["a", "bb"])] ∧
    (toBatches ["a", "bb"]).length = 1 := by
  have h := embed_batches envOpenAI provRev ["a", "bb"] (by rfl) (by simp)
    (fun b _ => ⟨(canonResponse vecLen b).reverse, rfl⟩)
  constructor
  · rw [h.1]
    simp [toBatches, BATCH_SIZE, EMBEDDING_MODEL, envOpenAI, jsOrStr]
  · rw [h.2.1]
    norm_num [BATCH_SIZE]

end Qmd
